import Mathlib

set_option maxHeartbeats 1000000

/-!
Verification of the XIAOZI voice-device core against its natural-language
specification.  The definitions below are a shallow embedding of the C++
sources under src/main: pure functions become Lean functions, the mutable
fields an operation touches become explicit record state, fallible paths
(HTTP failure, JSON parse failure, std::stoi exceptions) become Option.
Where the repository ships only a declaration (application.h without its
.cc), the operation is modelled from the spec; such definitions say so in
their doc comment.
-/

/-! ## Definitions: shallow embedding of the sources and the spec-modelled
operations -/

/-- Model of std::stoi s restriction to the digit prefix of a segment
(src/main/ota.cc line 438): the longest leading run of decimal digits is
converted; an empty run means std::stoi throws std::invalid_argument, which
is modelled as `none`. -/
def stoiDigits (cs : List Char) : Option Nat :=
  let ds := cs.takeWhile Char.isDigit
  if ds.isEmpty then none
  else some (ds.foldl (fun n c => n * 10 + (c.toNat - 48)) 0)

/-- Model of std::stoi on one version segment: leading spaces are skipped, an
optional sign is accepted, then at least one decimal digit is required. -/
def stoi (cs : List Char) : Option Int :=
  match cs.dropWhile (fun c => c == ' ') with
  | '-' :: rest => (stoiDigits rest).map (fun n => -(n : Int))
  | '+' :: rest => (stoiDigits rest).map (fun n => (n : Int))
  | rest => (stoiDigits rest).map (fun n => (n : Int))

/-- Splitting a character list at every dot, keeping empty segments, as
std::getline(ss, segment, dot) sees them. -/
def splitDotsAux : List Char → List Char → List (List Char)
  | [], acc => [acc.reverse]
  | c :: cs, acc =>
    if c == '.' then acc.reverse :: splitDotsAux cs [] else splitDotsAux cs (c :: acc)

/-- The segments std::getline yields for Ota::ParseVersion
(src/main/ota.cc lines 432-442): the empty input yields no segment, and a
final delimiter yields no trailing empty segment, because the stream is at
end-of-file when the next getline call runs. -/
def getlineSegments (cs : List Char) : List (List Char) :=
  match cs with
  | [] => []
  | _ =>
    let parts := splitDotsAux cs []
    if parts.getLast? = some [] then parts.dropLast else parts

/-- Ota::ParseVersion (src/main/ota.cc lines 432-442): split the version
string on dots and convert each segment with std::stoi; `none` models the
uncaught exception when a segment carries no leading integer. -/
def Ota.ParseVersion (version : String) : Option (List Int) :=
  (getlineSegments version.data).mapM stoi

/-- The comparison loop of Ota::IsNewVersionAvailable
(src/main/ota.cc lines 448-456) on the parsed component lists: at the first
index where the components differ the greater component decides; with all
shared components equal, the list with strictly more components is newer. -/
def versionNewer : List Int → List Int → Bool
  | [], ys => !ys.isEmpty
  | _ :: _, [] => false
  | x :: xs, y :: ys => if x < y then true else if y < x then false else versionNewer xs ys

/-- Ota::IsNewVersionAvailable (src/main/ota.cc lines 444-457): parse both
version strings and run the component comparison; `none` models the
std::stoi exception escaping from ParseVersion. -/
def Ota.IsNewVersionAvailable (currentVersion newVersion : String) : Option Bool := do
  let current ← Ota.ParseVersion currentVersion
  let newer ← Ota.ParseVersion newVersion
  return versionNewer current newer

/-- The claim C8 reading of the comparison: there is a first index where the
parsed components differ and there the new version's component is greater,
or all shared components are equal and the new version has strictly more
components. -/
def SpecNewVersion (current newer : List Int) : Prop :=
  (∃ i, i < current.length ∧ i < newer.length ∧
      (∀ j, j < i → current.getD j 0 = newer.getD j 0) ∧
      current.getD i 0 < newer.getD i 0) ∨
  ((∀ j, j < current.length → j < newer.length → current.getD j 0 = newer.getD j 0) ∧
      current.length < newer.length)

/-- The activation section of the version-check response
(src/main/ota.cc lines 159-179). -/
structure ActivationSection where
  message : Option String
  code : Option String
  challenge : Option String
deriving DecidableEq

/-- The firmware section of the version-check response
(src/main/ota.cc lines 263-290). -/
structure FirmwareSection where
  version : Option String
  url : Option String
  force : Option Int
deriving DecidableEq

/-- A successfully cJSON-parsed version-check response, restricted to what
Ota::CheckVersion reads: `mqtt` and `websocket` record whether those
sections are present, `server_time` whether the section is present with a
timestamp field (the only case that sets has_server_time_). -/
structure VersionResponse where
  activation : Option ActivationSection
  mqtt : Bool
  websocket : Bool
  server_time : Bool
  firmware : Option FirmwareSection
deriving DecidableEq

/-- The Ota object's fields that CheckVersion reads or writes
(src/main/ota.h lines 141-156). -/
structure OtaState where
  check_version_url_ : String
  activation_message_ : String
  activation_code_ : String
  activation_challenge_ : String
  current_version_ : String
  firmware_version_ : String
  firmware_url_ : String
  has_new_version_ : Bool
  has_activation_code_ : Bool
  has_activation_challenge_ : Bool
  has_mqtt_config_ : Bool
  has_websocket_config_ : Bool
  has_server_time_ : Bool
deriving DecidableEq

/-- Ota::HasNewVersion (src/main/ota.h line 63). -/
def Ota.HasNewVersion (st : OtaState) : Bool := st.has_new_version_

/-- The activation, mqtt, websocket and server_time processing of
Ota::CheckVersion (src/main/ota.cc lines 152-254): reset and re-derive the
activation flags, store the activation strings when present, and record
which of the other sections the response carried. -/
def Ota.processSections (root : VersionResponse) (st : OtaState) : OtaState :=
  let st := { st with has_activation_code_ := false, has_activation_challenge_ := false }
  let st :=
    match root.activation with
    | none => st
    | some act =>
      let st :=
        match act.message with
        | some m => { st with activation_message_ := m }
        | none => st
      let st :=
        match act.code with
        | some c => { st with activation_code_ := c, has_activation_code_ := true }
        | none => st
      match act.challenge with
      | some ch => { st with activation_challenge_ := ch, has_activation_challenge_ := true }
      | none => st
  { st with has_mqtt_config_ := root.mqtt, has_websocket_config_ := root.websocket,
            has_server_time_ := root.server_time }

/-- Ota::CheckVersion (src/main/ota.cc lines 107-294) over an abstract HTTP
transcript: `appVersion` is esp_app_get_description()->version, `httpOpenOk`
whether Http::Open succeeded, `body` the cJSON parse of the response body
(`none` = parse failure).  Returns the C++ bool result paired with the
updated object state; the outer `none` models the uncaught std::stoi
exception escaping from the version comparison. -/
def Ota.CheckVersion (appVersion : String) (httpOpenOk : Bool)
    (body : Option VersionResponse) (st : OtaState) : Option (Bool × OtaState) :=
  let st := { st with current_version_ := appVersion }
  if st.check_version_url_.length < 10 then some (false, st)
  else if !httpOpenOk then some (false, st)
  else
    match body with
    | none => some (false, st)
    | some root =>
      let st := { Ota.processSections root st with has_new_version_ := false }
      match root.firmware with
      | none => some (true, st)
      | some fw =>
        let st :=
          match fw.version with
          | some v => { st with firmware_version_ := v }
          | none => st
        let st :=
          match fw.url with
          | some u => { st with firmware_url_ := u }
          | none => st
        match fw.version, fw.url with
        | some _, some _ =>
          match Ota.IsNewVersionAvailable st.current_version_ st.firmware_version_ with
          | none => none
          | some newer =>
            let hnv := if fw.force = some 1 then true else newer
            some (true, { st with has_new_version_ := hnv })
        | _, _ => some (true, st)

/-- An Ota state as the constructor leaves it, with a configured check URL
(src/main/ota.cc lines 29-54, src/main/ota.h lines 141-156). -/
def initialOta : OtaState :=
  { check_version_url_ := "https://api.example.com/ota/"
    activation_message_ := ""
    activation_code_ := ""
    activation_challenge_ := ""
    current_version_ := ""
    firmware_version_ := ""
    firmware_url_ := ""
    has_new_version_ := false
    has_activation_code_ := false
    has_activation_challenge_ := false
    has_mqtt_config_ := false
    has_websocket_config_ := false
    has_server_time_ := false }

/-- A successfully parsed response carrying no firmware section. -/
def noFirmwareResponse : VersionResponse :=
  { activation := none, mqtt := false, websocket := false, server_time := false,
    firmware := none }

/-- The pair (bool returned by CheckVersion, HasNewVersion afterwards). -/
def checkVersionOutcome (r : Option (Bool × OtaState)) : Option (Bool × Bool) :=
  r.map (fun p => (p.fst, Ota.HasNewVersion p.snd))

/-- HasNewVersion() after a CheckVersion call that returned. -/
def hasNewAfter (r : Option (Bool × OtaState)) : Option Bool :=
  r.map (fun p => Ota.HasNewVersion p.snd)

/-- A response that forces installation of the firmware version already
running. -/
def forcedResponse : VersionResponse :=
  { activation := none, mqtt := false, websocket := false, server_time := false,
    firmware := some { version := some "1.2.3",
                       url := some "https://api.example.com/firmware.bin",
                       force := some 1 } }

/-- One call into the underlying esp_codec_dev device, with the byte count
transferred. -/
inductive DevOp where
  | codecDevRead (bytes : Nat)
  | codecDevWrite (bytes : Nat)
deriving DecidableEq

/-- BoxAudioCodec::Read (src/main/audio_codecs/box_audio_codec.cc lines
394-400): when input is enabled, esp_codec_dev_read is asked for
samples * sizeof(int16_t) bytes; the function always returns the requested
`samples`, whether or not any device read happened.  The second component
is the device I/O the call performed. -/
def BoxAudioCodec.Read (input_enabled_ : Bool) (samples : Nat) : Nat × List DevOp :=
  if input_enabled_ then (samples, [DevOp.codecDevRead (samples * 2)])
  else (samples, [])

/-- BoxAudioCodec::Write (src/main/audio_codecs/box_audio_codec.cc lines
421-427): the mirror image of Read for the output device. -/
def BoxAudioCodec.Write (output_enabled_ : Bool) (samples : Nat) : Nat × List DevOp :=
  if output_enabled_ then (samples, [DevOp.codecDevWrite (samples * 2)])
  else (samples, [])

/-- The number of 16-bit samples a list of device operations transferred. -/
def samplesTransferred (ops : List DevOp) : Nat :=
  (ops.map (fun op =>
    match op with
    | DevOp.codecDevRead bytes => bytes / 2
    | DevOp.codecDevWrite bytes => bytes / 2)).sum

/-- AudioCodec::InputData (src/main/audio_codecs/audio_codec.cc lines
23-32): read data.size() samples and report whether the returned count is
positive. -/
def AudioCodec.InputData (input_enabled_ : Bool) (size : Nat) : Bool × List DevOp :=
  let r := BoxAudioCodec.Read input_enabled_ size
  (decide (0 < r.fst), r.snd)

/-- The AudioCodec fields AudioCodec::Start touches
(src/main/audio_codecs/audio_codec.h lines 69-81). -/
structure AudioCodecState where
  input_enabled_ : Bool
  output_enabled_ : Bool
  output_volume_ : Int
deriving DecidableEq

/-- Settings::GetInt with a default: the persisted value when one exists,
the passed default otherwise. -/
def Settings.GetInt (stored : Option Int) (defaultValue : Int) : Int :=
  stored.getD defaultValue

/-- AudioCodec::Start (src/main/audio_codecs/audio_codec.cc lines 34-53):
load the persisted output volume with the current member value as default,
replace a value ≤ 0 by 10, then enable both I2S directions. -/
def AudioCodec.Start (stored : Option Int) (st : AudioCodecState) : AudioCodecState :=
  let v := Settings.GetInt stored st.output_volume_
  let v := if v ≤ 0 then 10 else v
  { st with output_volume_ := v, input_enabled_ := true, output_enabled_ := true }

/-- AudioCodec::output_volume (src/main/audio_codecs/audio_codec.h line 52). -/
def AudioCodec.output_volume (st : AudioCodecState) : Int := st.output_volume_

/-- DeviceState (src/main/application.h lines 35-56). -/
inductive DeviceState where
  | kDeviceStateUnknown
  | kDeviceStateStarting
  | kDeviceStateWifiConfiguring
  | kDeviceStateIdle
  | kDeviceStateConnecting
  | kDeviceStateListening
  | kDeviceStateSpeaking
  | kDeviceStateUpgrading
  | kDeviceStateActivating
  | kDeviceStateFatalError
deriving DecidableEq

/-- Modelled from the spec: AudioStreamPacket (protocol.h is not among the
repository's files) is the unit exchanged with the transport collaborator,
opus payload plus a 32-bit millisecond timestamp. -/
structure AudioStreamPacket where
  payload : List Nat
  timestamp_ms : Nat
deriving DecidableEq

/-- Modelled from the spec: the reason AbortSpeaking is given (protocol.h is
not among the repository's files); the spec fixes no values beyond the
parameter existing. -/
inductive AbortReason where
  | kAbortReasonNone
  | kAbortReasonWakeWordDetected
deriving DecidableEq

/-- Modelled from the spec: the transient alert tuple
{status, message, emotion, sound} shown via the board collaborator. -/
structure Alert where
  status : String
  message : String
  emotion : String
  sound : String
deriving DecidableEq

/-- The Application fields the modelled operations touch
(src/main/application.h lines 106-170): the device state, whether the
capture and playback pipelines are running, the decode queue, the active
alert and the aborted flag. -/
structure AppState where
  device_state_ : DeviceState
  capture_active : Bool
  playback_active : Bool
  audio_decode_queue_ : List AudioStreamPacket
  alert_ : Option Alert
  aborted_ : Bool
deriving DecidableEq

/-- The Application state at construction (src/main/application.h lines
131-156: device_state_ = kDeviceStateUnknown, empty queue, no alert). -/
def initApp : AppState :=
  { device_state_ := DeviceState.kDeviceStateUnknown
    capture_active := false
    playback_active := false
    audio_decode_queue_ := []
    alert_ := none
    aborted_ := false }

/-- Modelled from the spec: Application::SetDeviceState (declared at
src/main/application.h line 82; application.cc is not among the repository's
files).  Per spec 3 and 4.1 the state write performs the pre-transition
side effects: capture runs only in Listening, playback only in Speaking,
and entering Speaking clears stale queued audio. -/
def Application.SetDeviceState (st : AppState) (s : DeviceState) : AppState :=
  { st with
    device_state_ := s
    capture_active := s == DeviceState.kDeviceStateListening
    playback_active := s == DeviceState.kDeviceStateSpeaking
    audio_decode_queue_ :=
      if s == DeviceState.kDeviceStateSpeaking then [] else st.audio_decode_queue_ }

/-- The claim C4 invariant: at most one pipeline is active, capture only in
Listening, playback only in Speaking. -/
def pipelineInvariant (st : AppState) : Prop :=
  ¬(st.capture_active = true ∧ st.playback_active = true) ∧
  (st.capture_active = true → st.device_state_ = DeviceState.kDeviceStateListening) ∧
  (st.playback_active = true → st.device_state_ = DeviceState.kDeviceStateSpeaking)

/-- Modelled from the spec: the transport-receive callback's push into the
bounded Decode Queue (Application::audio_decode_queue_,
src/main/application.h line 156; application.cc is not among the
repository's files).  On overflow the oldest packets are dropped rather
than the newest rejected, to bound latency growth. -/
def pushDecodeQueue (bound : Nat) (q : List AudioStreamPacket) (p : AudioStreamPacket) :
    List AudioStreamPacket :=
  if q.length < bound then q ++ [p]
  else q.drop (q.length + 1 - bound) ++ [p]

/-- Modelled from the spec: Application::AbortSpeaking (declared at
src/main/application.h line 88; application.cc is not among the
repository's files) flushes the Decode Queue, immediately stops writing to
the Codec Port, then transitions the device to Idle. -/
def Application.AbortSpeaking (st : AppState) (reason : AbortReason) : AppState :=
  Application.SetDeviceState
    { st with aborted_ := true, audio_decode_queue_ := [], playback_active := false }
    DeviceState.kDeviceStateIdle

/-- Modelled from the spec: Application::StartListening (declared at
src/main/application.h line 92) begins a Listening session; it starts
capture and enqueues nothing for playback. -/
def Application.StartListening (st : AppState) : AppState :=
  Application.SetDeviceState st DeviceState.kDeviceStateListening

/-- A Speaking state with three packets queued (timestamps 100, 160,
220 ms), as in the spec's abort scenario. -/
def speakingExample : AppState :=
  { device_state_ := DeviceState.kDeviceStateSpeaking
    capture_active := false
    playback_active := true
    audio_decode_queue_ := [⟨[1], 100⟩, ⟨[2], 160⟩, ⟨[3], 220⟩]
    alert_ := none
    aborted_ := false }

/-- Modelled from the spec: Application::Schedule (declared at
src/main/application.h line 80; application.cc is not among the
repository's files) appends the callback to main_tasks_ (line 123) under
the mutex; posting is non-blocking and never drops a callback.  Callbacks
are identified by numeric ids. -/
def Application.Schedule (main_tasks_ : List Nat) (cb : Nat) : List Nat :=
  main_tasks_ ++ [cb]

/-- The scheduler's visible state: the pending main_tasks_ list and the ids
already run, in run order. -/
structure SchedState where
  main_tasks_ : List Nat
  ran : List Nat
deriving DecidableEq

/-- An externally visible scheduler event: a post from any thread, or a
wake of the main loop, which drains the whole pending list in enqueue
order. -/
inductive SchedEvent where
  | post (cb : Nat)
  | drain
deriving DecidableEq

/-- Modelled from the spec: on each wake the scheduler drains and runs, in
enqueue order, every callback posted via Schedule since the last drain. -/
def schedStep (st : SchedState) (e : SchedEvent) : SchedState :=
  match e with
  | SchedEvent.post cb => { st with main_tasks_ := Application.Schedule st.main_tasks_ cb }
  | SchedEvent.drain => { main_tasks_ := [], ran := st.ran ++ st.main_tasks_ }

/-- The callback ids a trace posts, in posting order. -/
def postsOf (tr : List SchedEvent) : List Nat :=
  tr.filterMap (fun e =>
    match e with
    | SchedEvent.post cb => some cb
    | SchedEvent.drain => none)

/-- Run a trace of scheduler events from the empty initial state. -/
def schedRun (tr : List SchedEvent) : SchedState :=
  tr.foldl schedStep { main_tasks_ := [], ran := [] }

/-- Modelled from the spec: Application::StopListening (declared at
src/main/application.h line 94; application.cc is not among the
repository's files) ends a Listening session and returns to Idle; when the
device is not Listening there is no session to end and nothing changes. -/
def Application.StopListening (st : AppState) : AppState :=
  if st.device_state_ == DeviceState.kDeviceStateListening then
    Application.SetDeviceState st DeviceState.kDeviceStateIdle
  else st

/-- Modelled from the spec: Application::DismissAlert (declared at
src/main/application.h line 86; application.cc is not among the
repository's files) clears the transient alert. -/
def Application.DismissAlert (st : AppState) : AppState :=
  { st with alert_ := none }

/-! ## Theorems -/

theorem versionNewer_irrefl (xs : List Int) : versionNewer xs xs = false := by
  induction xs with
  | nil => rfl
  | cons x xs ih => simp [versionNewer, ih]

theorem specNewVersion_cons (a : Int) (xs ys : List Int) :
    SpecNewVersion (a :: xs) (a :: ys) ↔ SpecNewVersion xs ys := by
  constructor
  · rintro (⟨i, h1, h2, hpre, hlt⟩ | ⟨heq, hlen⟩)
    · cases i with
      | zero => simp at hlt
      | succ k =>
        left
        refine ⟨k, ?_, ?_, ?_, ?_⟩
        · simp only [List.length_cons] at h1; omega
        · simp only [List.length_cons] at h2; omega
        · intro j hj
          have h := hpre (j + 1) (by omega)
          simpa using h
        · simpa using hlt
    · right
      refine ⟨?_, ?_⟩
      · intro j hj1 hj2
        have h := heq (j + 1) (by simp only [List.length_cons]; omega)
          (by simp only [List.length_cons]; omega)
        simpa using h
      · simp only [List.length_cons] at hlen; omega
  · rintro (⟨i, h1, h2, hpre, hlt⟩ | ⟨heq, hlen⟩)
    · left
      refine ⟨i + 1, ?_, ?_, ?_, ?_⟩
      · simp only [List.length_cons]; omega
      · simp only [List.length_cons]; omega
      · intro j hj
        cases j with
        | zero => simp
        | succ m => simpa using hpre m (by omega)
      · simpa using hlt
    · right
      refine ⟨?_, ?_⟩
      · intro j hj1 hj2
        cases j with
        | zero => simp
        | succ m =>
          have h := heq m (by simp only [List.length_cons] at hj1; omega)
            (by simp only [List.length_cons] at hj2; omega)
          simpa using h
      · simp only [List.length_cons]; omega

theorem versionNewer_iff (xs : List Int) : ∀ ys : List Int,
    (versionNewer xs ys = true ↔ SpecNewVersion xs ys) := by
  induction xs with
  | nil =>
    intro ys
    cases ys with
    | nil =>
      constructor
      · intro h; simp [versionNewer] at h
      · rintro (⟨i, h1, _⟩ | ⟨_, hlen⟩)
        · simp at h1
        · simp at hlen
    | cons y ys =>
      constructor
      · intro _
        right
        exact ⟨fun j hj _ => by simp at hj, by simp⟩
      · intro _; rfl
  | cons x xs ih =>
    intro ys
    cases ys with
    | nil =>
      constructor
      · intro h; simp [versionNewer] at h
      · rintro (⟨i, _, h2, _⟩ | ⟨_, hlen⟩)
        · simp at h2
        · simp at hlen
    | cons y ys =>
      by_cases hxy : x < y
      · simp only [versionNewer, if_pos hxy]
        constructor
        · intro _
          left
          exact ⟨0, by simp, by simp, fun j hj => by omega, by simpa using hxy⟩
        · intro _; trivial
      · by_cases hyx : y < x
        · simp only [versionNewer, if_neg hxy, if_pos hyx]
          constructor
          · intro h; exact absurd h (by simp)
          · rintro (⟨i, h1, h2, hpre, hlt⟩ | ⟨heq, hlen⟩)
            · cases i with
              | zero => simp at hlt; omega
              | succ k =>
                have h := hpre 0 (by omega)
                simp at h
                omega
            · have h := heq 0 (by simp) (by simp)
              simp at h
              omega
        · have hxe : x = y := le_antisymm (not_lt.mp hyx) (not_lt.mp hxy)
          subst hxe
          simp only [versionNewer, if_neg hxy]
          rw [specNewVersion_cons]
          exact ih ys

/-- Claim C8: for version strings that parse as dot-separated integer
sequences, Ota::IsNewVersionAvailable returns true iff at the first index
where the parsed components differ the new version's component is greater,
or all shared components are equal and the new version has strictly more
components; in particular no version is reported newer than itself. -/
theorem Ota.isNewVersionAvailable_correct (cur nv : String) (c n : List Int)
    (hc : Ota.ParseVersion cur = some c) (hn : Ota.ParseVersion nv = some n) :
    (Ota.IsNewVersionAvailable cur nv = some true ↔ SpecNewVersion c n) ∧
    Ota.IsNewVersionAvailable cur cur = some false := by
  constructor
  · have hrun : Ota.IsNewVersionAvailable cur nv = some (versionNewer c n) := by
      simp [Ota.IsNewVersionAvailable, hc, hn]
    rw [hrun]
    simp [versionNewer_iff]
  · simp [Ota.IsNewVersionAvailable, hc, versionNewer_irrefl]

/-- Witness for C8 at the concrete versions 1.2.3 and 1.3.0. -/
theorem Ota.isNewVersionAvailable_correct_witness :
    (Ota.IsNewVersionAvailable "1.2.3" "1.3.0" = some true ↔
      SpecNewVersion [1, 2, 3] [1, 3, 0]) ∧
    Ota.IsNewVersionAvailable "1.2.3" "1.2.3" = some false :=
  Ota.isNewVersionAvailable_correct "1.2.3" "1.3.0" [1, 2, 3] [1, 3, 0]
    (by decide) (by decide)

theorem processSections_preserves (root : VersionResponse) (st : OtaState) :
    (Ota.processSections root st).current_version_ = st.current_version_ ∧
    (Ota.processSections root st).firmware_version_ = st.firmware_version_ ∧
    (Ota.processSections root st).firmware_url_ = st.firmware_url_ ∧
    (Ota.processSections root st).check_version_url_ = st.check_version_url_ := by
  unfold Ota.processSections
  rcases hA : root.activation with _ | act
  · simp [hA]
  · rcases hM : act.message with _ | m <;> rcases hC : act.code with _ | c <;>
      rcases hCh : act.challenge with _ | ch <;> simp [hA, hM, hC, hCh]

/-- Counterexample to claim C2: on a response that parses successfully but
has no firmware section, Ota::CheckVersion returns true while
HasNewVersion() is false afterwards, so the returned bool is not
"a new firmware version is available". -/
theorem Ota.checkVersion_counterexample :
    checkVersionOutcome
      (Ota.CheckVersion "1.0.0" true (some noFirmwareResponse) initialOta)
      = some (true, false) := by decide

/-- Claim C2 amended: whenever Ota::CheckVersion returns, its bool result
reports that the version check itself completed (URL configured, HTTP
connection opened, response parsed) and is independent of whether a new
firmware version is available; HasNewVersion() reports availability. -/
theorem Ota.checkVersion_returns_success (appVersion : String) (httpOpenOk : Bool)
    (body : Option VersionResponse) (st : OtaState) (b : Bool) (r : OtaState)
    (h : Ota.CheckVersion appVersion httpOpenOk body st = some (b, r)) :
    b = (if st.check_version_url_.length < 10 then false
         else (httpOpenOk && body.isSome)) := by
  simp only [Ota.CheckVersion] at h
  by_cases hurl : st.check_version_url_.length < 10
  · rw [if_pos hurl] at h
    simp only [Option.some.injEq, Prod.mk.injEq] at h
    obtain ⟨hb, -⟩ := h
    subst hb
    simp [hurl]
  · rw [if_neg hurl] at h
    cases httpOpenOk with
    | false =>
      simp only [Bool.not_false, if_true] at h
      simp only [Option.some.injEq, Prod.mk.injEq] at h
      obtain ⟨hb, -⟩ := h
      subst hb
      simp [hurl]
    | true =>
      simp only [Bool.not_true, Bool.false_eq_true, if_false] at h
      cases body with
      | none =>
        simp only [Option.some.injEq, Prod.mk.injEq] at h
        obtain ⟨hb, -⟩ := h
        subst hb
        simp [hurl]
      | some root =>
        simp only at h
        cases hfw : root.firmware with
        | none =>
          simp only [hfw] at h
          simp only [Option.some.injEq, Prod.mk.injEq] at h
          obtain ⟨hb, -⟩ := h
          subst hb
          simp [hurl]
        | some fw =>
          simp only [hfw] at h
          cases hv : fw.version with
          | none =>
            simp only [hv] at h
            cases hu : fw.url with
            | none =>
              simp only [hu] at h
              simp only [Option.some.injEq, Prod.mk.injEq] at h
              obtain ⟨hb, -⟩ := h
              subst hb
              simp [hurl]
            | some u =>
              simp only [hu] at h
              simp only [Option.some.injEq, Prod.mk.injEq] at h
              obtain ⟨hb, -⟩ := h
              subst hb
              simp [hurl]
          | some v =>
            simp only [hv] at h
            cases hu : fw.url with
            | none =>
              simp only [hu] at h
              simp only [Option.some.injEq, Prod.mk.injEq] at h
              obtain ⟨hb, -⟩ := h
              subst hb
              simp [hurl]
            | some u =>
              simp only [hu] at h
              split at h
              · exact absurd h (by simp)
              · simp only [Option.some.injEq, Prod.mk.injEq] at h
                obtain ⟨hb, -⟩ := h
                subst hb
                simp [hurl]

/-- Witness for the amended C2 at a concrete transcript. -/
theorem Ota.checkVersion_returns_success_witness :
    (true : Bool) = (if initialOta.check_version_url_.length < 10 then false
         else (true && (some noFirmwareResponse).isSome)) :=
  Ota.checkVersion_returns_success "1.0.0" true (some noFirmwareResponse) initialOta
    true { initialOta with current_version_ := "1.0.0" } (by decide)

/-- Claim C9: when the firmware section carries a version, a url and a force
field equal to 1, CheckVersion leaves has_new_version_ true even though the
offered version is not newer than the running one (equal or older). -/
theorem Ota.checkVersion_force_install (appVersion fwVersion fwUrl : String)
    (root : VersionResponse) (st : OtaState)
    (hroot : root.firmware = some { version := some fwVersion, url := some fwUrl, force := some 1 })
    (hurl : 10 ≤ st.check_version_url_.length)
    (hnot : Ota.IsNewVersionAvailable appVersion fwVersion = some false) :
    hasNewAfter (Ota.CheckVersion appVersion true (some root) st) = some true := by
  simp only [Ota.CheckVersion]
  rw [if_neg (by omega)]
  simp only [Bool.not_true, Bool.false_eq_true, if_false]
  simp only [hroot]
  have hp := (processSections_preserves root { st with current_version_ := appVersion }).1
  simp only [hp, hnot]
  simp [hasNewAfter, Ota.HasNewVersion]

/-- Witness for C9: version 1.2.3 offered to a device already on 1.2.3 with
force = 1 still sets has_new_version_. -/
theorem Ota.checkVersion_force_install_witness :
    hasNewAfter (Ota.CheckVersion "1.2.3" true (some forcedResponse) initialOta) = some true :=
  Ota.checkVersion_force_install "1.2.3" "1.2.3" "https://api.example.com/firmware.bin"
    forcedResponse initialOta (by decide) (by decide) (by decide)

/-- Counterexample to claim C1: with input disabled, Read(240) performs no
device I/O — zero samples are actually read — yet returns 240, so the
return value is not the number of samples actually read. -/
theorem BoxAudioCodec.read_disabled_counterexample :
    (BoxAudioCodec.Read false 240).fst = 240 ∧
    samplesTransferred (BoxAudioCodec.Read false 240).snd = 0 ∧
    (240 : Nat) ≠ 0 := by decide

/-- Claim C1 amended: Read and Write always return exactly the requested
sample count; when the corresponding direction is disabled no device I/O
occurs and the requested count is returned anyway, and when it is enabled
the device transfer is for exactly the requested count. -/
theorem BoxAudioCodec.read_write_return_requested (ie oe : Bool) (n m : Nat) :
    (BoxAudioCodec.Read ie n).fst = n ∧
    (BoxAudioCodec.Write oe m).fst = m ∧
    (BoxAudioCodec.Read false n).snd = [] ∧
    (BoxAudioCodec.Write false m).snd = [] ∧
    samplesTransferred (BoxAudioCodec.Read true n).snd = n ∧
    samplesTransferred (BoxAudioCodec.Write true m).snd = m := by
  refine ⟨?_, ?_, ?_, ?_, ?_, ?_⟩ <;>
    cases ie <;> cases oe <;>
      simp [BoxAudioCodec.Read, BoxAudioCodec.Write, samplesTransferred]

/-- Claim C10: after AudioCodec::Start the output volume is strictly
positive for every persisted setting value: a stored value ≤ 0 is replaced
by the default 10, a positive stored value is kept. -/
theorem AudioCodec.start_output_volume_positive (stored : Int) (st : AudioCodecState) :
    0 < AudioCodec.output_volume (AudioCodec.Start (some stored) st) ∧
    (stored ≤ 0 → AudioCodec.output_volume (AudioCodec.Start (some stored) st) = 10) ∧
    (0 < stored → AudioCodec.output_volume (AudioCodec.Start (some stored) st) = stored) := by
  simp only [AudioCodec.Start, AudioCodec.output_volume, Settings.GetInt, Option.getD_some]
  by_cases hs : stored ≤ 0
  · simp [hs]
  · simp [hs]
    omega

theorem setDeviceState_invariant (st : AppState) (s : DeviceState) :
    pipelineInvariant (Application.SetDeviceState st s) := by
  cases s <;> simp [Application.SetDeviceState, pipelineInvariant]

/-- Claim C4: along every sequence of SetDeviceState calls from the initial
state, every intermediate state has at most one pipeline active, capture
active only in Listening and playback active only in Speaking. -/
theorem Application.setDeviceState_pipeline_exclusive (states : List DeviceState)
    (st_ : AppState)
    (hmem : st_ ∈ List.scanl Application.SetDeviceState initApp states) :
    pipelineInvariant st_ := by
  have general : ∀ (l : List DeviceState) (st0 : AppState), pipelineInvariant st0 →
      ∀ x ∈ List.scanl Application.SetDeviceState st0 l, pipelineInvariant x := by
    intro l
    induction l with
    | nil =>
      intro st0 h0 x hx
      simp only [List.scanl_nil, List.mem_singleton] at hx
      exact hx ▸ h0
    | cons s rest ih =>
      intro st0 h0 x hx
      simp only [List.scanl_cons, List.singleton_append, List.mem_cons] at hx
      rcases hx with hx | hx
      · exact hx ▸ h0
      · exact ih (Application.SetDeviceState st0 s) (setDeviceState_invariant st0 s) x hx
  exact general states initApp (by simp [initApp, pipelineInvariant]) st_ hmem

/-- Witness for C4 along the session Listening → Speaking → Idle. -/
theorem Application.setDeviceState_pipeline_exclusive_witness :
    pipelineInvariant (Application.SetDeviceState initApp DeviceState.kDeviceStateListening) :=
  Application.setDeviceState_pipeline_exclusive
    [DeviceState.kDeviceStateListening, DeviceState.kDeviceStateSpeaking,
     DeviceState.kDeviceStateIdle]
    (Application.SetDeviceState initApp DeviceState.kDeviceStateListening)
    (by decide)

theorem pushDecodeQueue_le (bound : Nat) (hb : 0 < bound) (q : List AudioStreamPacket)
    (p : AudioStreamPacket) (hq : q.length ≤ bound) :
    (pushDecodeQueue bound q p).length ≤ bound := by
  unfold pushDecodeQueue
  split
  · simp only [List.length_append, List.length_cons, List.length_nil]
    omega
  · simp only [List.length_append, List.length_drop, List.length_cons, List.length_nil]
    omega

/-- Claim C3 (spec-modelled): every queue state reached by pushing any
sequence of packets into an initially empty Decode Queue stays within the
bound, and a push arriving while the queue is at the bound evicts exactly
the oldest packet and retains the newly pushed one. -/
theorem Application.decodeQueue_bounded (bound : Nat) (ps : List AudioStreamPacket)
    (q : List AudioStreamPacket) (p : AudioStreamPacket)
    (hb : 0 < bound) (hq : q.length = bound) :
    (∀ q_ ∈ List.scanl (pushDecodeQueue bound) [] ps, q_.length ≤ bound) ∧
    pushDecodeQueue bound q p = q.drop 1 ++ [p] := by
  constructor
  · have general : ∀ (l : List AudioStreamPacket) (q0 : List AudioStreamPacket),
        q0.length ≤ bound →
        ∀ x ∈ List.scanl (pushDecodeQueue bound) q0 l, x.length ≤ bound := by
      intro l
      induction l with
      | nil =>
        intro q0 h0 x hx
        simp only [List.scanl_nil, List.mem_singleton] at hx
        exact hx ▸ h0
      | cons a rest ih =>
        intro q0 h0 x hx
        simp only [List.scanl_cons, List.singleton_append, List.mem_cons] at hx
        rcases hx with hx | hx
        · exact hx ▸ h0
        · exact ih _ (pushDecodeQueue_le bound hb q0 a h0) x hx
    exact general ps [] (by simp)
  · unfold pushDecodeQueue
    rw [if_neg (by omega)]
    have hone : q.length + 1 - bound = 1 := by omega
    rw [hone]

/-- Witness for C3: bound 3, four packets pushed, and an eviction at the
bound. -/
theorem Application.decodeQueue_bounded_witness :
    (∀ q_ ∈ List.scanl (pushDecodeQueue 3) []
        [⟨[1], 100⟩, ⟨[2], 160⟩, ⟨[3], 220⟩, ⟨[4], 280⟩], q_.length ≤ 3) ∧
    pushDecodeQueue 3 [⟨[1], 100⟩, ⟨[2], 160⟩, ⟨[3], 220⟩] ⟨[4], 280⟩ =
      List.drop 1 [⟨[1], 100⟩, ⟨[2], 160⟩, ⟨[3], 220⟩] ++ [⟨[4], 280⟩] :=
  Application.decodeQueue_bounded 3
    [⟨[1], 100⟩, ⟨[2], 160⟩, ⟨[3], 220⟩, ⟨[4], 280⟩]
    [⟨[1], 100⟩, ⟨[2], 160⟩, ⟨[3], 220⟩] ⟨[4], 280⟩
    (by decide) (by decide)

/-- Claim C5 (spec-modelled): AbortSpeaking invoked at any point during
Speaking moves the device to Idle, leaves the Decode Queue empty — still
empty when the next Listening session starts — and stops playback writes
to the Codec Port. -/
theorem Application.abortSpeaking_flushes (st : AppState) (reason : AbortReason)
    (h : st.device_state_ = DeviceState.kDeviceStateSpeaking) :
    (Application.AbortSpeaking st reason).device_state_ = DeviceState.kDeviceStateIdle ∧
    (Application.AbortSpeaking st reason).audio_decode_queue_ = [] ∧
    (Application.AbortSpeaking st reason).playback_active = false ∧
    (Application.StartListening
        (Application.AbortSpeaking st reason)).audio_decode_queue_ = [] := by
  simp [Application.AbortSpeaking, Application.StartListening, Application.SetDeviceState]

/-- Witness for C5 at the Speaking state with three queued packets. -/
theorem Application.abortSpeaking_flushes_witness :
    (Application.AbortSpeaking speakingExample
        AbortReason.kAbortReasonNone).device_state_ = DeviceState.kDeviceStateIdle ∧
    (Application.AbortSpeaking speakingExample
        AbortReason.kAbortReasonNone).audio_decode_queue_ = [] ∧
    (Application.AbortSpeaking speakingExample
        AbortReason.kAbortReasonNone).playback_active = false ∧
    (Application.StartListening (Application.AbortSpeaking speakingExample
        AbortReason.kAbortReasonNone)).audio_decode_queue_ = [] :=
  Application.abortSpeaking_flushes speakingExample AbortReason.kAbortReasonNone (by decide)

theorem schedStep_foldl (tr : List SchedEvent) : ∀ st : SchedState,
    (tr.foldl schedStep st).ran ++ (tr.foldl schedStep st).main_tasks_ =
      st.ran ++ st.main_tasks_ ++ postsOf tr := by
  induction tr with
  | nil => intro st; simp [postsOf]
  | cons e rest ih =>
    intro st
    cases e with
    | post cb =>
      simp only [List.foldl_cons, schedStep]
      rw [ih]
      simp [Application.Schedule, postsOf]
    | drain =>
      simp only [List.foldl_cons, schedStep]
      rw [ih]
      simp [postsOf]

/-- Claim C6 (spec-modelled): after any trace of posts and drains, the ids
already run followed by the ids still pending equal the posted ids in
posting order — so an earlier-posted callback always runs before a
later-posted one, no callback is ever dropped regardless of backlog, and a
final drain runs everything. -/
theorem Application.schedule_fifo_no_drop (tr : List SchedEvent) :
    (schedRun tr).ran ++ (schedRun tr).main_tasks_ = postsOf tr ∧
    (schedRun (tr ++ [SchedEvent.drain])).ran = postsOf tr ∧
    (schedRun (tr ++ [SchedEvent.drain])).main_tasks_ = [] := by
  refine ⟨?_, ?_, ?_⟩
  · have h := schedStep_foldl tr { main_tasks_ := [], ran := [] }
    simpa [schedRun] using h
  · have hfold : schedRun (tr ++ [SchedEvent.drain]) =
        schedStep (schedRun tr) SchedEvent.drain := by
      simp [schedRun, List.foldl_append]
    rw [hfold]
    simp only [schedStep]
    have h := schedStep_foldl tr { main_tasks_ := [], ran := [] }
    simpa [schedRun] using h
  · simp [schedRun, List.foldl_append, schedStep]

/-- Claim C7 (spec-modelled): StopListening when the device is not
Listening leaves the state and pipelines untouched, and DismissAlert when
no alert is active is a no-op. -/
theorem Application.stopListening_dismissAlert_noop (st : AppState)
    (hs : st.device_state_ ≠ DeviceState.kDeviceStateListening)
    (ha : st.alert_ = none) :
    Application.StopListening st = st ∧ Application.DismissAlert st = st := by
  constructor
  · simp [Application.StopListening, hs]
  · cases st with
    | mk ds ca pa dq al ab =>
      simp at ha
      simp [Application.DismissAlert, ha]

/-- Witness for C7 at the initial state: not Listening, no alert. -/
theorem Application.stopListening_dismissAlert_noop_witness :
    Application.StopListening initApp = initApp ∧
    Application.DismissAlert initApp = initApp :=
  Application.stopListening_dismissAlert_noop initApp (by decide) (by decide)
